import Mathlib

/-
  Verification of the streaming HTML URL-prefixing transformer
  (HTMLTransformer and its parser state machine).

  The transformer is embedded shallowly: input is a list of byte values
  (each 0..255), the mutable `vars` bag becomes an explicit context
  record, the string-keyed dispatch table `SM` becomes a total function
  over an enumeration of the parser states, and the output `WriteBuffer`
  is modelled as the flat list of bytes pushed downstream (the 4096-byte
  chunking of the buffer does not change the byte sequence).  JavaScript
  strings are modelled as lists of UTF-16 code units; `Buffer.toString`
  is modelled by a WHATWG UTF-8 decoder and the `charCodeAt`-based
  write-back truncates each unit modulo 256, exactly as assignment into
  a Node `Buffer` does.

  Two further JavaScript semantics are modelled faithfully.  Property
  reads such as `RewriteTags[tagName]` and `vars.attrs[attrName]`
  traverse the prototype chain: a name inherited from
  `Object.prototype` (or, for the tag name `constructor`, from the
  `Object` function itself) yields a truthy inherited value, so the
  table and handler types distinguish plain strategy entries from
  benign inherited functions (called without effect) and from
  non-callable inherited values whose invocation throws a TypeError.
  And `String.replace` expands its replacement string via
  GetSubstitution: since the URL prefix is spliced into the template
  `url($1<prefix>/$2`, dollar patterns inside the prefix are
  substituted as well.
-/

set_option maxRecDepth 10000

/- Character codes from the source's `Chars` table. -/
def chTab : Nat := 0x09
def chLF : Nat := 0x0A
def chCR : Nat := 0x0D
def chSpace : Nat := 0x20
def chBang : Nat := 0x21
def chDQuote : Nat := 0x22
def chSQuote : Nat := 0x27
def chDash : Nat := 0x2D
def chSlash : Nat := 0x2F
def chLT : Nat := 0x3C
def chEq : Nat := 0x3D
def chGT : Nat := 0x3E

/- Convert a Lean string literal of ASCII characters to its list of code
   points; used to write byte lists and code-unit lists readably. -/
def ascii (s : String) : List Nat := s.data.map Char.toNat

/- Test if a character is a valid tag or attribute name character
   (`isNameChar` in the source). -/
def isNameChar (ch : Nat) : Bool :=
  (0x41 ≤ ch && ch ≤ 0x5A) || (0x61 ≤ ch && ch ≤ 0x7A) || ch == chDash || ch == 0x5F

/- Test if a character is a valid tag name character (`isTagChar`). -/
def isTagChar (ch : Nat) : Bool :=
  ch == chBang || isNameChar ch

/- Test if a character is an HTML whitespace character (`isWhitespace`). -/
def isWhitespace (ch : Nat) : Bool :=
  ch == chSpace || ch == chTab || ch == chLF || ch == chCR

/- `isNonWhitespace` from the source. -/
def isNonWhitespace (ch : Nat) : Bool := !isWhitespace ch

/- Lower-case the ASCII letters of a unit list (`String.toLowerCase`;
   the buffers this is applied to hold ASCII name characters, for which
   the JavaScript and ASCII lower-casings agree). -/
def asciiLower (l : List Nat) : List Nat :=
  l.map fun c => if 0x41 ≤ c ∧ c ≤ 0x5A then c + 0x20 else c

/- The whitespace set of JavaScript's `String.prototype.trim` and of the
   regex class `\s` (WhiteSpace plus LineTerminator code points). -/
def jsSpace (u : Nat) : Bool :=
  u == 0x09 || u == 0x0A || u == 0x0B || u == 0x0C || u == 0x0D || u == 0x20 ||
  u == 0xA0 || u == 0x1680 || (0x2000 ≤ u && u ≤ 0x200A) || u == 0x2028 ||
  u == 0x2029 || u == 0x202F || u == 0x205F || u == 0x3000 || u == 0xFEFF

/- `String.prototype.trim`: strip `jsSpace` units from both ends. -/
def jsTrim (l : List Nat) : List Nat :=
  ((l.dropWhile jsSpace).reverse.dropWhile jsSpace).reverse

/- WHATWG UTF-8 decode (Node's `Buffer.toString('utf8')`): bytes to
   UTF-16 code units, invalid sequences replaced by U+FFFD, code points
   above U+FFFF encoded as a surrogate pair.  The fuel argument is only
   a structural-recursion device: every recursive call consumes at
   least one byte and one unit of fuel, so fuel equal to the length of
   the byte list (as supplied by `utf8Decode`) is never exhausted. -/
def utf8DecodeF : Nat → List Nat → List Nat
  | 0, _ => []
  | _, [] => []
  | fuel + 1, b1 :: rest =>
    if b1 < 0x80 then b1 :: utf8DecodeF fuel rest
    else if 0xC2 ≤ b1 ∧ b1 ≤ 0xDF then
      match rest with
      | b2 :: rest2 =>
        if 0x80 ≤ b2 ∧ b2 ≤ 0xBF then
          ((b1 - 0xC0) * 0x40 + (b2 - 0x80)) :: utf8DecodeF fuel rest2
        else 0xFFFD :: utf8DecodeF fuel rest
      | [] => [0xFFFD]
    else if 0xE0 ≤ b1 ∧ b1 ≤ 0xEF then
      match rest with
      | b2 :: rest2 =>
        if (0x80 ≤ b2 ∧ b2 ≤ 0xBF) ∧ (b1 ≠ 0xE0 ∨ 0xA0 ≤ b2) ∧ (b1 ≠ 0xED ∨ b2 ≤ 0x9F) then
          match rest2 with
          | b3 :: rest3 =>
            if 0x80 ≤ b3 ∧ b3 ≤ 0xBF then
              ((b1 - 0xE0) * 0x1000 + (b2 - 0x80) * 0x40 + (b3 - 0x80)) ::
                utf8DecodeF fuel rest3
            else 0xFFFD :: utf8DecodeF fuel rest2
          | [] => [0xFFFD]
        else 0xFFFD :: utf8DecodeF fuel rest
      | [] => [0xFFFD]
    else if 0xF0 ≤ b1 ∧ b1 ≤ 0xF4 then
      match rest with
      | b2 :: rest2 =>
        if (0x80 ≤ b2 ∧ b2 ≤ 0xBF) ∧ (b1 ≠ 0xF0 ∨ 0x90 ≤ b2) ∧ (b1 ≠ 0xF4 ∨ b2 ≤ 0x8F) then
          match rest2 with
          | b3 :: rest3 =>
            if 0x80 ≤ b3 ∧ b3 ≤ 0xBF then
              match rest3 with
              | b4 :: rest4 =>
                if 0x80 ≤ b4 ∧ b4 ≤ 0xBF then
                  let cp := (b1 - 0xF0) * 0x40000 + (b2 - 0x80) * 0x1000 +
                    (b3 - 0x80) * 0x40 + (b4 - 0x80)
                  (0xD800 + (cp - 0x10000) / 0x400) ::
                    (0xDC00 + (cp - 0x10000) % 0x400) :: utf8DecodeF fuel rest4
                else 0xFFFD :: utf8DecodeF fuel rest3
              | [] => [0xFFFD]
            else 0xFFFD :: utf8DecodeF fuel rest2
          | [] => [0xFFFD]
        else 0xFFFD :: utf8DecodeF fuel rest
      | [] => [0xFFFD]
    else 0xFFFD :: utf8DecodeF fuel rest

/- `str(arr)` from the source: decode a byte array as UTF-8. -/
def utf8Decode (l : List Nat) : List Nat := utf8DecodeF l.length l

/- The four attribute-value rewrite strategies of the source, as a
   tagged enumeration (the source stores the functions themselves in
   `RewriteTags` and in `vars.writeAttr`). -/
inductive Strategy where
  | writeValue
  | prefixValue
  | prefixSrcSetValues
  | prefixCSSURLValues
  deriving Repr, DecidableEq

/- `String.prototype.split(/,/)` on code units. -/
def splitComma : List Nat → List (List Nat)
  | [] => [[]]
  | ch :: rest =>
    if ch = 0x2C then [] :: splitComma rest
    else
      match splitComma rest with
      | g :: gs => (ch :: g) :: gs
      | [] => [[ch]]

/- `prefixSrcSetValues` value pipeline: split the decoded value on
   commas, trim each candidate, prepend the URL prefix to candidates
   starting with a slash, rejoin with ", ". -/
def srcsetOut (pfx : List Nat) (units : List Nat) : List Nat :=
  List.intercalate (ascii ", ")
    ((splitComma units).map fun c =>
      let t := jsTrim c
      if t.head? = some chSlash then pfx ++ t else t)

/- Word characters of the regex metacharacter `\b` (and `\w`). -/
def isWordChar (u : Nat) : Bool :=
  (0x41 ≤ u && u ≤ 0x5A) || (0x61 ≤ u && u ≤ 0x7A) || (0x30 ≤ u && u ≤ 0x39) || u == 0x5F

/- A `\b` boundary holds before the current position when the previous
   unit (if any) is not a word character; the `url` that follows always
   begins with a word character. -/
def boundaryOK (prev : Option Nat) : Bool :=
  match prev with
  | none => true
  | some c => !isWordChar c

/- After a matched `url(`: the `(\s*)\/([^\/])` part of the regex.
   On success, return the captured whitespace run, the captured unit
   after the slash, and the remaining units after that unit. -/
def cssMatch : List Nat → Option (List Nat × Nat × List Nat)
  | [] => none
  | u :: rest =>
    if jsSpace u then (cssMatch rest).map fun r => (u :: r.1, r.2.1, r.2.2)
    else if u = chSlash then
      match rest with
      | c :: rest2 => if c = chSlash then none else some ([], c, rest2)
      | [] => none
    else none

/- A decimal digit code unit. -/
def isDigit (u : Nat) : Bool := 0x30 ≤ u && u ≤ 0x39

/- ECMA-262 GetSubstitution for a replacement template with m = 2
   capture groups: `$$` is a literal dollar, `$&` the matched text,
   a dollar-backquote the text before the match, `$'` the text after
   it, and `$1`/`$2` (also as `$01`/`$02`) the two captures; a dollar
   followed by anything else — including a digit sequence that names
   no capture — stands for itself.  `ws` is capture 1 (the whitespace
   run) and `c` capture 2 (the unit after the slash).  The fuel
   argument is only a structural-recursion device: every recursive
   call consumes at least one unit and one unit of fuel, so the fuel
   supplied by `getSubst` is never exhausted. -/
def getSubstF (ws c matched before after : List Nat) : Nat → List Nat → List Nat
  | _, [] => []
  | 0, l => l
  | fuel + 1, 0x24 :: rest =>
    match rest with
    | [] => [0x24]
    | x :: rest2 =>
      if x = 0x24 then 0x24 :: getSubstF ws c matched before after fuel rest2
      else if x = 0x26 then matched ++ getSubstF ws c matched before after fuel rest2
      else if x = 0x60 then before ++ getSubstF ws c matched before after fuel rest2
      else if x = 0x27 then after ++ getSubstF ws c matched before after fuel rest2
      else if isDigit x then
        match rest2 with
        | y :: rest3 =>
          if isDigit y ∧ 1 ≤ (x - 0x30) * 10 + (y - 0x30) ∧ (x - 0x30) * 10 + (y - 0x30) ≤ 2 then
            (if (x - 0x30) * 10 + (y - 0x30) = 1 then ws else c) ++
              getSubstF ws c matched before after fuel rest3
          else if 1 ≤ x - 0x30 ∧ x - 0x30 ≤ 2 then
            (if x - 0x30 = 1 then ws else c) ++
              getSubstF ws c matched before after fuel (y :: rest3)
          else 0x24 :: x :: getSubstF ws c matched before after fuel (y :: rest3)
        | [] =>
          if 1 ≤ x - 0x30 ∧ x - 0x30 ≤ 2 then
            (if x - 0x30 = 1 then ws else c) ++ getSubstF ws c matched before after fuel []
          else [0x24, x]
      else 0x24 :: x :: getSubstF ws c matched before after fuel rest2
  | fuel + 1, u :: rest => u :: getSubstF ws c matched before after fuel rest

/- Expand a replacement template for one match. -/
def getSubst (ws c matched before after t : List Nat) : List Nat :=
  getSubstF ws c matched before after t.length t

/- The replacement template built at line 133 of the source:
   `'url($1' + vars.prefix + '/$2'` — the URL prefix is spliced into
   the template, so dollar patterns inside it are substituted too. -/
def replTemplate (pfx : List Nat) : List Nat :=
  ascii "url($1" ++ pfx ++ ascii "/$2"

/- `prefixCSSURLValues` value pipeline: the global regex replace
   `value.replace(/\burl\((\s*)\/([^\/])/g, 'url($1' + pfx + '/$2')`
   as a left-to-right scanner.  `before` is the part of the subject
   before the current position: its last unit drives the `\b`
   word-boundary test and the whole of it is the text a
   dollar-backquote in the template expands to.  The fuel argument is
   only a structural-recursion device: every recursive call consumes
   at least one unit and one unit of fuel, so the fuel supplied by
   `cssScan` is never exhausted. -/
def cssScanF (pfx : List Nat) : Nat → List Nat → List Nat → List Nat
  | 0, _, l => l
  | fuel + 1, before, units =>
    match units with
    | 0x75 :: 0x72 :: 0x6C :: 0x28 :: tail =>
      if boundaryOK before.getLast? then
        match cssMatch tail with
        | some (ws, c, rem) =>
          getSubst ws [c] (ascii "url(" ++ ws ++ [chSlash, c]) before rem
              (replTemplate pfx) ++
            cssScanF pfx fuel (before ++ (ascii "url(" ++ ws ++ [chSlash, c])) rem
        | none => 0x75 :: cssScanF pfx fuel (before ++ [0x75]) (0x72 :: 0x6C :: 0x28 :: tail)
      else 0x75 :: cssScanF pfx fuel (before ++ [0x75]) (0x72 :: 0x6C :: 0x28 :: tail)
    | [] => []
    | u :: rest => u :: cssScanF pfx fuel (before ++ [u]) rest

/- The CSS-URL rewrite of a decoded attribute value. -/
def cssScan (pfx : List Nat) (units : List Nat) : List Nat :=
  cssScanF pfx (units.length + 1) [] units

/- Apply a rewrite strategy to the raw accumulated value bytes, giving
   the units passed to `buffer.writeChunk`.  `writeValue` and
   `prefixValue` write the byte array (and the prefix string) directly;
   the srcset and CSS strategies first decode the bytes to a JavaScript
   string via `str(...)`. -/
def applyStrategy : Strategy → List Nat → List Nat → List Nat
  | .writeValue, _, v => v
  | .prefixValue, pfx, v =>
    if v.get? 0 = some chSlash ∧ v.get? 1 ≠ some chSlash then pfx ++ v else v
  | .prefixSrcSetValues, pfx, v => srcsetOut pfx (utf8Decode v)
  | .prefixCSSURLValues, pfx, v => cssScan pfx (utf8Decode v)

/- The `RewriteTags` table, keyed by tag name. -/
def RewriteTags : List (List Nat × List (List Nat × Strategy)) := [
  (ascii "base",   [(ascii "href", .prefixValue), (ascii "target", .prefixValue)]),
  (ascii "link",   [(ascii "href", .prefixValue), (ascii "style", .prefixCSSURLValues)]),
  (ascii "a",      [(ascii "href", .prefixValue), (ascii "style", .prefixCSSURLValues)]),
  (ascii "source", [(ascii "src", .prefixValue), (ascii "srcset", .prefixSrcSetValues)]),
  (ascii "img",    [(ascii "src", .prefixValue), (ascii "srcset", .prefixSrcSetValues),
                    (ascii "style", .prefixCSSURLValues)]),
  (ascii "iframe", [(ascii "src", .prefixValue), (ascii "style", .prefixCSSURLValues)]),
  (ascii "embed",  [(ascii "src", .prefixValue), (ascii "style", .prefixCSSURLValues)]),
  (ascii "video",  [(ascii "src", .prefixValue), (ascii "style", .prefixCSSURLValues)]),
  (ascii "audio",  [(ascii "src", .prefixValue), (ascii "style", .prefixCSSURLValues)]),
  (ascii "track",  [(ascii "src", .prefixValue), (ascii "style", .prefixCSSURLValues)]),
  (ascii "script", [(ascii "src", .prefixValue)]),
  (ascii "*",      [(ascii "style", .prefixCSSURLValues)])
]

/- Property lookup on an object literal, `obj[key]`, as association-list
   lookup (`undefined` becomes `none`). -/
def lookupAssoc {α : Type} : List (List Nat × α) → List Nat → Option α
  | [], _ => none
  | (k, v) :: rest, n => if k = n then some v else lookupAssoc rest n

/- What `vars.writeAttr` can hold after `vars.attrs[attrName] ||
   writeValue` (line 272): one of the four rewrite functions stored in
   the tables, or — because the property access walks the prototype
   chain — a built-in member.  `benign` is a callable built-in whose
   call `vars.writeAttr(vars, buffer)` returns without throwing and
   without writing to the output buffer (the attribute value is
   silently dropped); `raising` is a truthy member whose call throws —
   a non-callable value such as the object `Object.prototype`
   (`__proto__`), or a built-in that rejects its arguments, such as
   `__defineGetter__`, whose second argument `buffer` is not
   callable. -/
inductive WriteAttr where
  | strategy (s : Strategy)
  | benign
  | raising
  deriving Repr, DecidableEq

/- What `vars.attrs` can hold after `read-tag-name`: one of the table
   literals of `RewriteTags`, or — because `RewriteTags[tagName]` also
   walks the prototype chain and tag names are lower-cased — the
   `Object` constructor (tag name `constructor`) or `Object.prototype`
   (tag name `__proto__`, via its inherited getter); both are truthy,
   so the wildcard fallback is not taken for those two tags. -/
inductive AttrTable where
  | table (t : List (List Nat × Strategy))
  | objectFn
  | objectProto
  deriving Repr, DecidableEq

/- The `Object.prototype` members whose call `(vars, buffer)` with
   `this = vars` returns normally without writing: `constructor` is
   the `Object` function (returns its object argument), and the rest
   only read their arguments. -/
def protoBenignNames : List (List Nat) :=
  [ascii "constructor", ascii "hasOwnProperty", ascii "isPrototypeOf",
   ascii "propertyIsEnumerable", ascii "toLocaleString", ascii "toString",
   ascii "valueOf", ascii "__lookupGetter__", ascii "__lookupSetter__"]

/- The `Object.prototype` members whose call throws: both require
   their second argument (the write buffer) to be callable. -/
def protoRaisingNames : List (List Nat) :=
  [ascii "__defineGetter__", ascii "__defineSetter__"]

/- Every `Object.prototype` member name reachable from an attribute
   name (name characters, case preserved). -/
def protoMemberNames : List (List Nat) :=
  protoBenignNames ++ protoRaisingNames ++ [ascii "__proto__"]

/- Resolution of a name on the `Object.prototype` chain, as inherited
   by the table literals: member functions classified by call
   behaviour; `__proto__` yields the receiver's prototype
   `Object.prototype`, a truthy non-callable, so the later call
   throws; anything else is `undefined` and `|| writeValue`
   applies. -/
def protoLookup (n : List Nat) : WriteAttr :=
  if n ∈ protoBenignNames then .benign
  else if n ∈ protoRaisingNames then .raising
  else if n = ascii "__proto__" then .raising
  else .strategy .writeValue

/- Own function-valued properties of the `Object` constructor whose
   call `Object.f(vars, buffer)` returns normally (property set of the
   Node runtime contemporary with the source; newer runtimes add
   `hasOwn` and `groupBy`, which no theorem depends on).  Note that
   `freeze`, `seal`, `preventExtensions`, `assign` and
   `setPrototypeOf` additionally mutate the `vars` bag or its
   prototype; none of the mutations touches a field the machine reads
   by name, but `freeze`/`seal`/`preventExtensions` make later field
   writes fail silently, which the context model does not track — no
   claim quantifies over inputs that reach them (only a
   `<constructor ...>` tag can). -/
def objectFnBenignNames : List (List Nat) :=
  [ascii "assign", ascii "entries", ascii "freeze",
   ascii "getOwnPropertyDescriptor", ascii "getOwnPropertyDescriptors",
   ascii "getOwnPropertyNames", ascii "getOwnPropertySymbols",
   ascii "getPrototypeOf", ascii "is", ascii "isExtensible",
   ascii "isFrozen", ascii "isSealed", ascii "keys",
   ascii "preventExtensions", ascii "seal", ascii "setPrototypeOf",
   ascii "values"]

/- Properties reachable on the `Object` constructor whose later call
   `(vars, buffer)` throws: `create`/`defineProperties` reject the
   buffer's numeric `_offset` field as a property descriptor,
   `defineProperty` its missing third argument, `fromEntries` the
   non-iterable `vars`; `length`, `name` and `prototype` are truthy
   non-callables; `apply`, `bind`, `call` and `toString` (from
   `Function.prototype`) require a callable `this`, and `constructor`
   is the `Function` constructor, which rejects `[object Object]` as a
   parameter name. -/
def objectFnRaisingNames : List (List Nat) :=
  [ascii "create", ascii "defineProperties", ascii "defineProperty",
   ascii "fromEntries", ascii "length", ascii "name", ascii "prototype",
   ascii "apply", ascii "bind", ascii "call", ascii "toString",
   ascii "constructor"]

/- Properties of `Function.prototype` whose access itself throws (the
   restricted `caller` and `arguments` accessors), reached at line 272
   before any value is read. -/
def objectFnLookupThrowNames : List (List Nat) :=
  [ascii "caller", ascii "arguments"]

/- `vars.attrs[attrName] || writeValue` (line 272): own keys first,
   then the prototype chain of the receiver.  On the `Object`
   constructor the chain is its own statics, then
   `Function.prototype`, then `Object.prototype`; its `__proto__`
   getter yields `Function.prototype`, which is callable and ignores
   its arguments, hence benign.  On `Object.prototype` itself the
   `__proto__` getter yields `null`, which is falsy, so `||
   writeValue` applies.  `.error` models an access that itself throws
   (`caller`/`arguments`). -/
def attrLookup : AttrTable → List Nat → Except Unit WriteAttr
  | .table t, n =>
    .ok (match lookupAssoc t n with
      | some s => .strategy s
      | none => protoLookup n)
  | .objectProto, n =>
    .ok (if n = ascii "__proto__" then .strategy .writeValue else protoLookup n)
  | .objectFn, n =>
    if n ∈ objectFnLookupThrowNames then .error ()
    else
      .ok (if n ∈ objectFnBenignNames then .benign
        else if n ∈ objectFnRaisingNames then .raising
        else if n = ascii "__proto__" then .benign
        else protoLookup n)

/- `RewriteTags[tagName]` with the truthiness-gated wildcard fallback,
   as performed at the end of `read-tag-name`: own keys, then the two
   `Object.prototype` members whose names are reachable after
   lower-casing (`constructor` and `__proto__`, both truthy), then the
   wildcard entry. -/
def tagAttrsFor (tn : List Nat) : Option AttrTable :=
  match lookupAssoc RewriteTags tn with
  | some t => some (.table t)
  | none =>
    if tn = ascii "constructor" then some .objectFn
    else if tn = ascii "__proto__" then some .objectProto
    else
      match lookupAssoc RewriteTags (ascii "*") with
      | some t => some (.table t)
      | none => none

/- The output of the `vars.writeAttr(vars, buffer)` call at the end of
   an attribute value: the units a rewrite strategy writes, nothing
   for a benign built-in, and `none` when the call throws. -/
def writeAttrOut : WriteAttr → List Nat → List Nat → Option (List Nat)
  | .strategy s, pfx, v => some (applyStrategy s pfx v)
  | .benign, _, _ => some []
  | .raising, _, _ => none

/- The parser states (the keys of the source's `SM` table). -/
inductive SMState where
  | findDoctype
  | readDoctype
  | writethrough
  | writethroughToEnd
  | readTagName
  | findAttrNameStart
  | readAttrName
  | findAttrEquals
  | findAttrValueStart
  | findAttrValueEndQuote
  | findAttrValueEndNoQuote
  | findTagEnd
  | findScriptEnd
  | findCommentEnd
  deriving Repr, DecidableEq

/- The mutable `vars` bag of the transformer, as an explicit record.
   `tagBuf` is `vars.tagName` while it is still an array of character
   codes; `tagName` is its value after `str(...).toLowerCase()`.
   Fields the source leaves `undefined` or deletes are `none` or the
   listed defaults; `vars.attrValue = false` is `none`. -/
structure Ctx where
  pfx : List Nat
  doctype : Option (List Nat) := none
  tagBuf : List Nat := []
  tagName : List Nat := []
  attrs : AttrTable := .table []
  attrName : List Nat := []
  attrValue : Option (List Nat) := none
  endQuote : Nat := 0
  writeAttr : WriteAttr := .strategy .writeValue
  currentTag : Option (List Nat) := none
  cbuff : Option Nat × Option Nat × Option Nat := (none, none, none)
  deriving Repr, DecidableEq

/- `endOfTagCheck` from the source. -/
def endOfTagCheck (ch : Nat) (ctx : Ctx) (continueState : SMState) : SMState :=
  if ch = chSlash then .writethrough
  else if ch = chGT then
    if ctx.tagName = ascii "script" then .findScriptEnd else .writethrough
  else continueState

/- The result of one handler invocation: the returned state (`none`
   models a handler returning `undefined`, which only `read-tag-name`
   can do, on its fall-through path when no attribute table resolves),
   the updated context, the bytes written to the output buffer before
   the handler finished — `writeChar` truncates each unit modulo 256,
   as assignment to a Node `Buffer` does — and whether the handler
   threw an exception instead of returning (a prototype-chain lookup
   or `writeAttr` call that raises). -/
structure StepRes where
  next : Option SMState
  ctx : Ctx
  out : List Nat
  raised : Bool
  deriving Repr, DecidableEq

/- One step of the state machine: the handler `SM[state](ch, buffer,
   vars)`. -/
def step : SMState → Nat → Ctx → StepRes
  | .findDoctype, ch, ctx =>
    if isWhitespace ch then ⟨some .findDoctype, ctx, [ch % 256], false⟩
    else if ch = chLT then
      ⟨some .readDoctype, { ctx with doctype := some [] }, [ch % 256], false⟩
    else ⟨some .writethroughToEnd, ctx, [ch % 256], false⟩
  | .readDoctype, ch, ctx =>
    if ch = chGT then
      let d := ctx.doctype.getD []
      let ctx1 := { ctx with doctype := none }
      if asciiLower (utf8Decode d) = ascii "!doctypehtml" then
        ⟨some .writethrough, ctx1, [ch % 256], false⟩
      else ⟨some .writethroughToEnd, ctx1, [ch % 256], false⟩
    else
      let d := ctx.doctype.getD []
      let d1 := if isWhitespace ch then d else d ++ [ch]
      if d1.length > 12 then
        ⟨some .writethroughToEnd, { ctx with doctype := none }, [ch % 256], false⟩
      else ⟨some .readDoctype, { ctx with doctype := some d1 }, [ch % 256], false⟩
  | .writethrough, ch, ctx =>
    if ch = chLT then ⟨some .readTagName, { ctx with tagBuf := [] }, [ch % 256], false⟩
    else ⟨some .writethrough, ctx, [ch % 256], false⟩
  | .writethroughToEnd, ch, ctx => ⟨some .writethroughToEnd, ctx, [ch % 256], false⟩
  | .readTagName, ch, ctx =>
    if isTagChar ch then
      ⟨some .readTagName, { ctx with tagBuf := ctx.tagBuf ++ [ch] }, [ch % 256], false⟩
    else
      let tn := asciiLower (utf8Decode ctx.tagBuf)
      let ctx1 := { ctx with tagName := tn }
      if tn = ascii "!--" then
        ⟨some .findCommentEnd, { ctx1 with cbuff := (none, none, none) }, [ch % 256], false⟩
      else
        match tagAttrsFor tn with
        | some attrs =>
          ⟨some (endOfTagCheck ch ctx1 .findAttrNameStart), { ctx1 with attrs := attrs },
            [ch % 256], false⟩
        | none => ⟨none, ctx1, [ch % 256], false⟩
  | .findAttrNameStart, ch, ctx =>
    if isNameChar ch then ⟨some .readAttrName, { ctx with attrName := [ch] }, [ch % 256], false⟩
    else ⟨some (endOfTagCheck ch ctx .findAttrNameStart), ctx, [ch % 256], false⟩
  | .readAttrName, ch, ctx =>
    if isNameChar ch then
      ⟨some .readAttrName, { ctx with attrName := ctx.attrName ++ [ch] }, [ch % 256], false⟩
    else
      match attrLookup ctx.attrs ctx.attrName with
      | .error _ => ⟨none, ctx, [ch % 256], true⟩
      | .ok wa =>
        let ctx1 := { ctx with writeAttr := wa }
        if ch = chEq then ⟨some .findAttrValueStart, ctx1, [ch % 256], false⟩
        else ⟨some .findAttrEquals, ctx1, [ch % 256], false⟩
  | .findAttrEquals, ch, ctx =>
    if ch = chEq then ⟨some .findAttrValueStart, ctx, [ch % 256], false⟩
    else if isNameChar ch then
      ⟨some .readAttrName, { ctx with attrName := [ch] }, [ch % 256], false⟩
    else ⟨some (endOfTagCheck ch ctx .findAttrEquals), ctx, [ch % 256], false⟩
  | .findAttrValueStart, ch, ctx =>
    if ch = chDQuote ∨ ch = chSQuote then
      ⟨some .findAttrValueEndQuote, { ctx with endQuote := ch, attrValue := some [] },
        [ch % 256], false⟩
    else if isNonWhitespace ch then
      ⟨some .findAttrValueEndNoQuote, { ctx with attrValue := some [ch] }, [], false⟩
    else ⟨some .findAttrValueStart, ctx, [], false⟩
  | .findAttrValueEndQuote, ch, ctx =>
    if ch = ctx.endQuote then
      match writeAttrOut ctx.writeAttr ctx.pfx (ctx.attrValue.getD []) with
      | some w =>
        ⟨some .findAttrNameStart, { ctx with attrValue := none },
          w.map (· % 256) ++ [ch % 256], false⟩
      | none => ⟨none, ctx, [], true⟩
    else if ch = chGT then
      match writeAttrOut ctx.writeAttr ctx.pfx (ctx.attrValue.getD []) with
      | some w =>
        ⟨some (endOfTagCheck ch ctx .writethrough), { ctx with attrValue := none },
          w.map (· % 256) ++ [ch % 256], false⟩
      | none => ⟨none, ctx, [], true⟩
    else
      ⟨some .findAttrValueEndQuote,
        { ctx with attrValue := some (ctx.attrValue.getD [] ++ [ch]) }, [], false⟩
  | .findAttrValueEndNoQuote, ch, ctx =>
    if isWhitespace ch then
      match writeAttrOut ctx.writeAttr ctx.pfx (ctx.attrValue.getD []) with
      | some w =>
        ⟨some .findAttrNameStart, { ctx with attrValue := none },
          w.map (· % 256) ++ [ch % 256], false⟩
      | none => ⟨none, ctx, [], true⟩
    else if ch = chGT then
      match writeAttrOut ctx.writeAttr ctx.pfx (ctx.attrValue.getD []) with
      | some w =>
        ⟨some (endOfTagCheck ch ctx .writethrough), { ctx with attrValue := none },
          w.map (· % 256) ++ [ch % 256], false⟩
      | none => ⟨none, ctx, [], true⟩
    else
      ⟨some .findAttrValueEndNoQuote,
        { ctx with attrValue := some (ctx.attrValue.getD [] ++ [ch]) }, [], false⟩
  | .findTagEnd, ch, ctx => ⟨some (endOfTagCheck ch ctx .findTagEnd), ctx, [ch % 256], false⟩
  | .findScriptEnd, ch, ctx =>
    if ch = chLT then
      ⟨some .findScriptEnd, { ctx with currentTag := some [] }, [ch % 256], false⟩
    else
      match ctx.currentTag with
      | none => ⟨some .findScriptEnd, ctx, [ch % 256], false⟩
      | some t =>
        if ch = chSlash ∨ isNameChar ch then
          ⟨some .findScriptEnd, { ctx with currentTag := some (t ++ [ch]) }, [ch % 256], false⟩
        else if t = ascii "/script" then ⟨some .writethrough, ctx, [ch % 256], false⟩
        else ⟨some .findScriptEnd, { ctx with currentTag := none }, [ch % 256], false⟩
  | .findCommentEnd, ch, ctx =>
    let (_, c1, c2) := ctx.cbuff
    let cbuff1 := (c1, c2, some ch)
    if cbuff1.1 = some chDash ∧ cbuff1.2.1 = some chDash ∧ cbuff1.2.2 = some chGT then
      ⟨some .writethrough, { ctx with cbuff := cbuff1 }, [ch % 256], false⟩
    else ⟨some .findCommentEnd, { ctx with cbuff := cbuff1 }, [ch % 256], false⟩

/- Drive the machine over one input chunk (the loop body of
   `_transform`); an exception thrown by a handler propagates out of
   `_transform` as a TypeError, and an undefined transition yields the
   thrown "Bad parser state transition" error. -/
def runSM : SMState → Ctx → List Nat → Except String (SMState × Ctx × List Nat)
  | s, ctx, [] => .ok (s, ctx, [])
  | s, ctx, ch :: rest =>
    let r := step s ch ctx
    if r.raised then .error "TypeError"
    else
      match r.next with
      | some s1 => (runSM s1 r.ctx rest).map fun q => (q.1, q.2.1, r.out ++ q.2.2)
      | none => .error "Bad parser state transition"

/- Feed a sequence of chunks through repeated `_transform` calls. -/
def runChunks : SMState → Ctx → List (List Nat) → Except String (SMState × Ctx × List Nat)
  | s, ctx, [] => .ok (s, ctx, [])
  | s, ctx, c :: cs =>
    match runSM s ctx c with
    | .ok (s1, ctx1, w) => (runChunks s1 ctx1 cs).map fun r => (r.1, r.2.1, w ++ r.2.2)
    | .error e => .error e

/- Remove a single trailing slash from the URL prefix (constructor). -/
def stripTrailingSlash (l : List Nat) : List Nat :=
  if l.getLast? = some chSlash then l.dropLast else l

/- Initial `vars` bag: `{ prefix }`. -/
def initCtx (p : List Nat) : Ctx := { pfx := p }

/- `_flush`: if an attribute value is still open its raw bytes are
   written through the buffer (no rewrite strategy), then the buffer is
   flushed.  The boolean records whether the flush callback is invoked;
   the source's `_flush` body never calls `callback`. -/
def flushRun (ctx : Ctx) : List Nat × Bool :=
  (match ctx.attrValue with
   | some v => v.map (· % 256)
   | none => [], false)

/- End-to-end transform of a chunked input stream: construct with the
   given URL prefix, feed every chunk, then flush. -/
def transformChunksE (pfx : List Nat) (chunks : List (List Nat)) : Except String (List Nat) :=
  match runChunks .findDoctype (initCtx (stripTrailingSlash pfx)) chunks with
  | .ok (_, ctx, out) => .ok (out ++ (flushRun ctx).1)
  | .error e => .error e

/- End-to-end transform of a whole input delivered as one chunk. -/
def transform (pfx input : List Nat) : List Nat :=
  match transformChunksE pfx [input] with
  | .ok o => o
  | .error _ => []

/- Modelled from the spec: the single-URL strategy as the spec words it
   ("emit the prefix immediately before the value iff the value's first
   unit is a slash and its second unit is not a slash; otherwise emit
   unchanged"); compared against `applyStrategy .prefixValue`. -/
def specSingleURL (pfx v : List Nat) : List Nat :=
  match v with
  | u1 :: rest =>
    if u1 = chSlash then
      match rest with
      | u2 :: _ => if u2 = chSlash then v else pfx ++ v
      | [] => pfx ++ v
    else v
  | [] => v

/- Modelled from the spec: one srcset candidate, trimmed, with the
   prefix prepended when the trimmed candidate begins with a slash. -/
def specSrcsetCandidate (pfx c : List Nat) : List Nat :=
  match jsTrim c with
  | u :: rest => if u = 0x2F then pfx ++ u :: rest else u :: rest
  | [] => []

/- Modelled from the spec: the URL-list (srcset) strategy as the spec
   words it: split on commas, trim each candidate, prefix candidates
   beginning with a slash, rejoin with ", ". -/
def specSrcset (pfx units : List Nat) : List Nat :=
  List.intercalate (ascii ", ") ((splitComma units).map (specSrcsetCandidate pfx))

/- Modelled from the spec: the whitespace-then-slash part of the
   claim's pattern — optional whitespace, then a single slash not
   followed by another slash; on success returns the whitespace run and
   the remainder after the slash. -/
def cssSpecMatch : List Nat → Option (List Nat × List Nat)
  | [] => none
  | u :: rest =>
    if jsSpace u then (cssSpecMatch rest).map fun r => (u :: r.1, r.2)
    else if u = chSlash then
      if rest.head? = some chSlash then none else some ([], rest)
    else none

/- Modelled from the spec: the CSS-URL strategy exactly as the claim
   words it — at every non-overlapping occurrence of `url(` followed by
   optional whitespace and a single slash not followed by another
   slash, insert the prefix immediately before that slash; the rest of
   the value is emitted unchanged.  (No word-boundary condition before
   `url(`, and no requirement that anything follow the slash.)  The
   fuel argument is only a structural-recursion device, as in
   `cssScanF`. -/
def cssSpecScanF (pfx : List Nat) : Nat → List Nat → List Nat
  | 0, l => l
  | fuel + 1, units =>
    match units with
    | 0x75 :: 0x72 :: 0x6C :: 0x28 :: tail =>
      match cssSpecMatch tail with
      | some (ws, rem) =>
        0x75 :: 0x72 :: 0x6C :: 0x28 :: (ws ++ pfx ++ chSlash :: cssSpecScanF pfx fuel rem)
      | none => 0x75 :: cssSpecScanF pfx fuel (0x72 :: 0x6C :: 0x28 :: tail)
    | [] => []
    | u :: rest => u :: cssSpecScanF pfx fuel rest

/- The claim's CSS-URL rewrite of a decoded attribute value. -/
def cssSpecScan (pfx : List Nat) (units : List Nat) : List Nat :=
  cssSpecScanF pfx (units.length + 1) units

/- Modelled from the amended claim: as `cssSpecScan`, but an occurrence
   only counts when the unit before `url(` (if any) is not a word
   character, and when at least one further unit follows the slash
   (that unit being distinct from a slash); scanning resumes after that
   following unit. -/
def cssAmendScan (pfx : List Nat) : Option Nat → List Nat → List Nat
  | _, [] => []
  | prev, u :: rest =>
    if (u :: rest).take 4 = [0x75, 0x72, 0x6C, 0x28] ∧ boundaryOK prev then
      match h : (rest.drop 3).drop ((rest.drop 3).takeWhile jsSpace).length with
      | s :: c :: rem =>
        if s = chSlash ∧ c ≠ chSlash then
          0x75 :: 0x72 :: 0x6C :: 0x28 ::
            ((rest.drop 3).takeWhile jsSpace ++ pfx ++
              chSlash :: c :: cssAmendScan pfx (some c) rem)
        else u :: cssAmendScan pfx (some u) rest
      | _ => u :: cssAmendScan pfx (some u) rest
    else u :: cssAmendScan pfx (some u) rest
termination_by _ l => l.length
decreasing_by
  all_goals simp
  all_goals (have hlen := congrArg List.length h
             simp [List.length_drop] at hlen
             omega)

/- The doctype phase of the machine as a predicate: `readDscan buf l`
   is true exactly when, continuing from `read-doctype` with `buf`
   accumulated, the machine reaches `writethrough` (the accumulated
   non-whitespace units, lower-cased, equal `!doctypehtml` at a `>`
   before more than 12 units accumulate). -/
def readDscan : List Nat → List Nat → Bool
  | buf, ch :: rest =>
    if ch = chGT then
      if asciiLower (utf8Decode buf) = ascii "!doctypehtml" then true else false
    else
      let d1 := if isWhitespace ch then buf else buf ++ [ch]
      if d1.length > 12 then false else readDscan d1 rest
  | _, [] => false

/- The `find-doctype` phase: skip leading whitespace, require `<`, then
   scan the doctype declaration. -/
def findDscan : List Nat → Bool
  | ch :: rest =>
    if isWhitespace ch then findDscan rest
    else if ch = chLT then readDscan [] rest
    else false
  | [] => false

/- The input begins (after optional whitespace) with a doctype
   declaration recognized as the HTML5 doctype. -/
def hasHtml5Doctype (input : List Nat) : Bool := findDscan input

/-
  Theorems.
-/

/- The tag lookup of `read-tag-name` always resolves a truthy
   attribute table: the wildcard entry exists, and the two
   prototype-chain hits are truthy objects. -/
theorem tagAttrsFor_isSome (tn : List Nat) : (tagAttrsFor tn).isSome := by
  unfold tagAttrsFor
  cases h : lookupAssoc RewriteTags tn
  · simp only [h]
    by_cases hc : tn = ascii "constructor"
    · simp [hc]
    · by_cases hp : tn = ascii "__proto__"
      · rw [hp]; decide
      · simp only [hc, hp, if_false]
        decide
  · simp [h]

/- Every handler either throws or returns a defined next state, for
   every unit and every context. -/
theorem step_defined (s : SMState) (ch : Nat) (ctx : Ctx) :
    (step s ch ctx).raised = true ∨ (step s ch ctx).next.isSome := by
  cases s <;> simp only [step] <;> (repeat' split) <;>
    first
      | (simp; done)
      | (rename_i heq
         have h2 := tagAttrsFor_isSome (asciiLower (utf8Decode ctx.tagBuf))
         rw [heq] at h2
         simp at h2)

/- Driving the machine over any chunk from any state either succeeds
   or propagates a thrown TypeError; it never reports a bad parser
   state transition. -/
theorem runSM_ok_or_raise (l : List Nat) :
    ∀ (s : SMState) (ctx : Ctx),
      (∃ r, runSM s ctx l = .ok r) ∨ runSM s ctx l = .error "TypeError" := by
  induction l with
  | nil => exact fun s ctx => .inl ⟨(s, ctx, []), rfl⟩
  | cons ch rest ih =>
    intro s ctx
    cases hr : (step s ch ctx).raised
    · have hd := step_defined s ch ctx
      rw [hr] at hd
      simp at hd
      obtain ⟨s1, hs1⟩ := Option.isSome_iff_exists.mp hd
      rcases ih s1 (step s ch ctx).ctx with ⟨r, hr2⟩ | hr2
      · exact .inl ⟨(r.1, r.2.1, (step s ch ctx).out ++ r.2.2),
          by simp [runSM, hr, hs1, hr2, Except.map]⟩
      · exact .inr (by simp [runSM, hr, hs1, hr2, Except.map])
    · exact .inr (by simp [runSM, hr])

/- The same for a whole chunked stream. -/
theorem runChunks_ok_or_raise (chunks : List (List Nat)) :
    ∀ (s : SMState) (ctx : Ctx),
      (∃ r, runChunks s ctx chunks = .ok r) ∨
        runChunks s ctx chunks = .error "TypeError" := by
  induction chunks with
  | nil => exact fun s ctx => .inl ⟨(s, ctx, []), rfl⟩
  | cons c cs ih =>
    intro s ctx
    rcases runSM_ok_or_raise c s ctx with ⟨r1, h1⟩ | h1
    · rcases r1 with ⟨s1, ctx1, w⟩
      rcases ih s1 ctx1 with ⟨r2, h2⟩ | h2
      · exact .inl ⟨(r2.1, r2.2.1, w ++ r2.2.2), by simp [runChunks, h1, h2, Except.map]⟩
      · exact .inr (by simp [runChunks, h1, h2, Except.map])
    · exact .inr (by simp [runChunks, h1])

/-- C2 (code bug): every (state, byte, context) triple yields a defined
next state unless the handler throws; `read-tag-name` always resolves a
truthy attribute table (the wildcard entry exists), so the "Bad parser
state transition" error in `_transform` is unreachable for every input
and chunking.  But "processing a chunk never raises" is false of the
code: an attribute named `__proto__` resolves, through the prototype
chain, to the non-callable object `Object.prototype`, and the
`vars.writeAttr(vars, buffer)` call at the end of its value throws a
TypeError — contradicting the code's own header comment that the parser
never chokes; the last conjunct evaluates the machine at such an
input. -/
theorem c2_no_bad_transition :
    (∀ (s : SMState) (ch : Nat) (ctx : Ctx),
      (step s ch ctx).raised = true ∨ (step s ch ctx).next.isSome) ∧
    (∀ tn, (tagAttrsFor tn).isSome) ∧
    (∀ (pfxU : List Nat) (chunks : List (List Nat)),
      transformChunksE pfxU chunks ≠ .error "Bad parser state transition") ∧
    transformChunksE (ascii "") [ascii "<!DOCTYPE html><a __proto__=x>"] =
      .error "TypeError" := by
  refine ⟨step_defined, tagAttrsFor_isSome, ?_, by rfl⟩
  intro pfxU chunks h
  rcases runChunks_ok_or_raise chunks .findDoctype (initCtx (stripTrailingSlash pfxU)) with
    ⟨r, hr⟩ | hr
  · rcases r with ⟨s1, ctx1, w⟩
    simp [transformChunksE, hr] at h
  · simp only [transformChunksE, hr] at h
    exact absurd (Except.error.inj h) (by decide)

/- `writethrough-to-end` copies every remaining unit through unchanged
   and never modifies the context. -/
theorem runSM_wte (l : List Nat) :
    ∀ ctx : Ctx, runSM .writethroughToEnd ctx l =
      .ok (.writethroughToEnd, ctx, l.map (· % 256)) := by
  induction l with
  | nil => intro ctx; rfl
  | cons ch rest ih => intro ctx; simp [runSM, step, ih, Except.map]

/- Continuing from `read-doctype` with `buf` accumulated: if the
   doctype scan does not succeed, every unit is written through
   unchanged and the attribute-value slot is untouched. -/
theorem runSM_readD (l : List Nat) :
    ∀ (buf : List Nat) (ctx : Ctx), ctx.doctype = some buf →
      readDscan buf l = false →
      ∃ s1 ctx1, runSM .readDoctype ctx l = .ok (s1, ctx1, l.map (· % 256)) ∧
        ctx1.attrValue = ctx.attrValue := by
  induction l with
  | nil => intro buf ctx hd hs; exact ⟨.readDoctype, ctx, rfl, rfl⟩
  | cons ch rest ih =>
    intro buf ctx hd hs
    simp only [readDscan] at hs
    by_cases hgt : ch = chGT
    · rw [if_pos hgt] at hs
      by_cases hcmp : asciiLower (utf8Decode buf) = ascii "!doctypehtml"
      · rw [if_pos hcmp] at hs; cases hs
      · have hwte := runSM_wte rest ({ ctx with doctype := none })
        refine ⟨.writethroughToEnd, { ctx with doctype := none }, ?_, rfl⟩
        simp [runSM, step, hgt, hd, hcmp, hwte, Except.map]
    · rw [if_neg hgt] at hs
      by_cases hlen : (if isWhitespace ch then buf else buf ++ [ch]).length > 12
      · refine ⟨.writethroughToEnd, { ctx with doctype := none }, ?_, rfl⟩
        have hwte := runSM_wte rest ({ ctx with doctype := none })
        simp only [hlen, if_pos] at hs ⊢
        simp [runSM, step, hgt, hd, hlen, hwte, Except.map]
      · rw [if_neg hlen] at hs
        obtain ⟨s1, ctx1, hrun, hav⟩ :=
          ih (if isWhitespace ch then buf else buf ++ [ch])
            ({ ctx with doctype := some (if isWhitespace ch then buf else buf ++ [ch]) })
            rfl hs
        refine ⟨s1, ctx1, ?_, hav⟩
        simp [runSM, step, hgt, hd, hlen, hrun, Except.map]

/- Continuing from `find-doctype`: if the input does not begin with the
   HTML5 doctype, every unit is written through unchanged and the
   attribute-value slot is untouched. -/
theorem runSM_findD (l : List Nat) :
    ∀ ctx : Ctx, findDscan l = false →
      ∃ s1 ctx1, runSM .findDoctype ctx l = .ok (s1, ctx1, l.map (· % 256)) ∧
        ctx1.attrValue = ctx.attrValue := by
  induction l with
  | nil => intro ctx hs; exact ⟨.findDoctype, ctx, rfl, rfl⟩
  | cons ch rest ih =>
    intro ctx hs
    simp only [findDscan] at hs
    by_cases hws : isWhitespace ch
    · rw [if_pos hws] at hs
      obtain ⟨s1, ctx1, hrun, hav⟩ := ih ctx hs
      exact ⟨s1, ctx1, by simp [runSM, step, hws, hrun, Except.map], hav⟩
    · rw [if_neg hws] at hs
      by_cases hlt : ch = chLT
      · rw [if_pos hlt] at hs
        subst hlt
        obtain ⟨s1, ctx1, hrun, hav⟩ :=
          runSM_readD rest [] ({ ctx with doctype := some [] }) rfl hs
        refine ⟨s1, ctx1, ?_, hav⟩
        simp [runSM, step, hws, hrun, Except.map]
      · have hwte := runSM_wte rest ctx
        refine ⟨.writethroughToEnd, ctx, ?_, rfl⟩
        simp [runSM, step, hws, hlt, hwte, Except.map]

/-- C6: for every input that does not begin (after optional leading
whitespace) with a doctype declaration whose non-whitespace content
case-insensitively equals `!doctypehtml` terminated by `>` — including
when more than 12 non-whitespace units accumulate before `>` — and for
every URL prefix, the entire input is emitted unchanged. -/
theorem c6_doctype_gating (pfxU input : List Nat)
    (hdoc : hasHtml5Doctype input = false) (hb : ∀ b ∈ input, b < 256) :
    transform pfxU input = input := by
  obtain ⟨s1, ctx1, hrun, hav⟩ :=
    runSM_findD input (initCtx (stripTrailingSlash pfxU)) hdoc
  have hmap : input.map (· % 256) = input := by
    have h1 : input.map (· % 256) = input.map id :=
      List.map_congr_left fun b hbm => Nat.mod_eq_of_lt (hb b hbm)
    simpa using h1
  have hav2 : ctx1.attrValue = none := hav
  simp [transform, transformChunksE, runChunks, hrun, Except.map, flushRun, hav2, hmap]

/-- Witness for C6 at a concrete non-HTML input and non-empty prefix. -/
theorem c6_witness :
    hasHtml5Doctype (ascii "hello world") = false ∧
    transform (ascii "/p") (ascii "hello world") = ascii "hello world" :=
  ⟨by decide, c6_doctype_gating (ascii "/p") (ascii "hello world") (by decide) (by decide)⟩

/-- C1 (code bug): the code's own header comment and the spec state
that with an empty URL prefix the output is byte-for-byte identical to
the input; but `find-attr-value-start` never writes whitespace between
`=` and the attribute value, so this concrete input loses a space even
with the empty prefix. -/
theorem c1_identity_violation :
    transform (ascii "") (ascii "<!DOCTYPE html><p a= b>") =
      ascii "<!DOCTYPE html><p a=b>" ∧
    ascii "<!DOCTYPE html><p a=b>" ≠ ascii "<!DOCTYPE html><p a= b>" :=
  ⟨by decide, by decide⟩

/-- C3: the single-URL strategy emits the prefix immediately before the
value iff the value's first unit is a slash and its second unit is not
a slash; otherwise (including protocol-relative values) the value is
emitted unchanged — shown by equality with the spec-worded function,
plus the spec's protocol-relative example end-to-end. -/
theorem c3_single_url :
    (∀ pfxU v : List Nat, applyStrategy .prefixValue pfxU v = specSingleURL pfxU v) ∧
    transform (ascii "/p") (ascii "<!DOCTYPE html><img src=\"//cdn.example.com/x.png\">") =
      ascii "<!DOCTYPE html><img src=\"//cdn.example.com/x.png\">" := by
  refine ⟨fun pfxU v => ?_, by decide⟩
  cases v with
  | nil => simp [applyStrategy, specSingleURL]
  | cons a t =>
    cases t with
    | nil =>
      by_cases ha : a = chSlash <;> simp [applyStrategy, specSingleURL, ha]
    | cons b t2 =>
      by_cases ha : a = chSlash <;> by_cases hb : b = chSlash <;>
        simp [applyStrategy, specSingleURL, ha, hb]

/-- C4: the URL-list (srcset) strategy emits the value split on commas,
each candidate trimmed, the prefix prepended to candidates beginning
with a slash, rejoined with ", " — shown by equality with the
spec-worded function, plus the spec's srcset example end-to-end. -/
theorem c4_srcset :
    (∀ pfxU units : List Nat, srcsetOut pfxU units = specSrcset pfxU units) ∧
    transform (ascii "/p") (ascii "<!DOCTYPE html><img srcset=\"/a.png 1x, /b.png 2x\">") =
      ascii "<!DOCTYPE html><img srcset=\"/p/a.png 1x, /p/b.png 2x\">" := by
  refine ⟨fun pfxU units => ?_, by decide⟩
  simp only [srcsetOut, specSrcset]
  congr 1
  refine List.map_congr_left fun c _ => ?_
  simp only [specSrcsetCandidate]
  generalize jsTrim c = t
  cases t with
  | nil => simp
  | cons a t2 => by_cases ha : a = 0x2F <;> simp [ha, chSlash]

/-- C9 (code bug): `_flush` writes the still-open attribute value
verbatim — no rewrite strategy is applied — and flushes the buffer, but
its completion callback is never invoked (the boolean returned by
`flushRun` models whether `callback` is called in the `_flush` body,
and it is not); the end-to-end conjunct shows a dangling `href` value
written verbatim with no prefix applied. -/
theorem c9_flush :
    (∀ ctx : Ctx, (flushRun ctx).1 = (ctx.attrValue.getD []).map (· % 256) ∧
      (flushRun ctx).2 = false) ∧
    transform (ascii "/p") (ascii "<!DOCTYPE html><a href=\"/x") =
      ascii "<!DOCTYPE html><a href=\"/x" := by
  refine ⟨fun ctx => ⟨?_, rfl⟩, by decide⟩
  unfold flushRun
  cases ctx.attrValue <;> simp

/-- C7 (amended): in `find-script-end` every unit is emitted unchanged
and the next state is `find-script-end` or `writethrough`; the machine
returns to `writethrough` exactly when the currently recorded candidate
tag name equals the case-sensitive literal `/script` and the incoming
unit is not `<`, not a slash and not a name character (so `</SCRIPT>`
never ends script mode).  Because the recorded name is not cleared on
exit, it can carry over into a subsequent script body, which may then
end without any closing tag of its own.  An opening `<script ...>` tag
closing with `>` enters `find-script-end` via `endOfTagCheck`. -/
theorem c7_amended (ctx : Ctx) (ch : Nat) (hch : ch < 256) :
    (step .findScriptEnd ch ctx).out = [ch] ∧
    ((step .findScriptEnd ch ctx).next = some .findScriptEnd ∨
      (step .findScriptEnd ch ctx).next = some .writethrough) ∧
    ((step .findScriptEnd ch ctx).next = some .writethrough ↔
      ch ≠ chLT ∧ ctx.currentTag = some (ascii "/script") ∧
        ¬(ch = chSlash ∨ isNameChar ch = true)) ∧
    (ctx.tagName = ascii "script" → endOfTagCheck chGT ctx .writethrough = .findScriptEnd) := by
  have hmod : ch % 256 = ch := Nat.mod_eq_of_lt hch
  have hlast : ctx.tagName = ascii "script" →
      endOfTagCheck chGT ctx .writethrough = .findScriptEnd := by
    intro h
    simp [endOfTagCheck, h, show ¬(chGT = chSlash) by decide]
  by_cases hlt : ch = chLT
  · subst hlt
    refine ⟨by simp [step, hmod], Or.inl (by simp [step]), by simp [step], hlast⟩
  · cases hct : ctx.currentTag with
    | none =>
      refine ⟨by simp [step, hlt, hct, hmod], Or.inl (by simp [step, hlt, hct]), ?_, hlast⟩
      simp [step, hlt, hct]
    | some t =>
      by_cases hpush : ch = chSlash ∨ isNameChar ch = true
      · refine ⟨by simp [step, hlt, hct, hpush, hmod],
          Or.inl (by simp [step, hlt, hct, hpush]), ?_, hlast⟩
        simp [step, hlt, hct, hpush]
      · by_cases hts : t = ascii "/script"
        · subst hts
          refine ⟨by simp [step, hlt, hct, hpush, hmod],
            Or.inr (by simp [step, hlt, hct, hpush]), ?_, hlast⟩
          simp [step, hlt, hct, hpush]
        · refine ⟨by simp [step, hlt, hct, hpush, hts, hmod],
            Or.inl (by simp [step, hlt, hct, hpush, hts]), ?_, hlast⟩
          simp [step, hlt, hct, hpush, hts]

/-- Witness for C7: with `/script` recorded, a `>` exits to
`writethrough` and is emitted unchanged. -/
theorem c7_witness :
    (step .findScriptEnd 0x3E { pfx := [], currentTag := some (ascii "/script") }).next =
      some .writethrough ∧
    (step .findScriptEnd 0x3E { pfx := [], currentTag := some (ascii "/script") }).out =
      [0x3E] := by
  have h := c7_amended { pfx := [], currentTag := some (ascii "/script") } 0x3E (by decide)
  exact ⟨h.2.2.1.mpr ⟨by decide, rfl, by decide⟩, h.1⟩

/-- Counterexample for C7 as stated: after a first script element ends,
the candidate buffer still holds `/script`, so the second script body
ends at its first blank — before any closing tag — and the anchor
inside the second script body is rewritten, contradicting "every byte
is emitted unchanged until a tag whose recorded name is exactly
`/script` completes". -/
theorem c7_counterexample :
    transform (ascii "/p")
        (ascii "<!DOCTYPE html><script>a</script><script> <a href=\"/x\"></script>") =
      ascii "<!DOCTYPE html><script>a</script><script> <a href=\"/p/x\"></script>" ∧
    ascii "<!DOCTYPE html><script>a</script><script> <a href=\"/p/x\"></script>" ≠
      ascii "<!DOCTYPE html><script>a</script><script> <a href=\"/x\"></script>" :=
  ⟨by decide, by decide⟩

/-- C8 (amended): in every parser state other than the three
attribute-value states, each input byte — in particular every byte of
value 0x80 or above — is emitted unchanged by the step that consumes
it.  (Inside attribute values handled by the URL-list or CSS-URL
strategies the value is UTF-8-decoded and re-encoded one byte per
UTF-16 code unit, so non-ASCII bytes there may be altered; see the
counterexample.) -/
theorem c8_amended (s : SMState) (ch : Nat) (ctx : Ctx)
    (h1 : s ≠ .findAttrValueStart) (h2 : s ≠ .findAttrValueEndQuote)
    (h3 : s ≠ .findAttrValueEndNoQuote) (hch : ch < 256) :
    (step s ch ctx).out = [ch] := by
  have hmod : ch % 256 = ch := Nat.mod_eq_of_lt hch
  cases s <;>
    first
      | exact absurd rfl h1
      | exact absurd rfl h2
      | exact absurd rfl h3
      | (simp only [step]; (repeat' split) <;> simp [hmod])

/-- Witness for C8 at a lead byte of a UTF-8 sequence in the
`writethrough` state. -/
theorem c8_witness : (step .writethrough 0xC3 (initCtx [])).out = [0xC3] :=
  c8_amended .writethrough 0xC3 (initCtx []) (by decide) (by decide) (by decide) (by decide)

/-- Counterexample for C8 as stated: a non-ASCII byte pair 0xC3 0xA9
inside a `srcset` value is re-encoded as the single byte 0xE9 even with
the empty prefix: the input contains one 0xC3 byte, the output none. -/
theorem c8_counterexample :
    transform (ascii "") (ascii "<!DOCTYPE html><img srcset=\"" ++ [0xC3, 0xA9] ++ ascii "\">") =
      ascii "<!DOCTYPE html><img srcset=\"" ++ [0xE9] ++ ascii "\">" ∧
    (ascii "<!DOCTYPE html><img srcset=\"" ++ [0xC3, 0xA9] ++ ascii "\">").count 0xC3 = 1 ∧
    (ascii "<!DOCTYPE html><img srcset=\"" ++ [0xE9] ++ ascii "\">").count 0xC3 = 0 :=
  ⟨by decide, by decide, by decide⟩

/- A value found by association-list lookup is one of the stored
   values. -/
theorem lookupAssoc_mem {α : Type} :
    ∀ (l : List (List Nat × α)) (n : List Nat) (v : α),
      lookupAssoc l n = some v → v ∈ l.map Prod.snd := by
  intro l
  induction l with
  | nil => intro n v h; cases h
  | cons p rest ih =>
    intro n v h
    rcases p with ⟨k, w⟩
    simp only [lookupAssoc] at h
    split at h
    · simp only [Option.some.injEq] at h
      simp [h]
    · simp [ih _ _ h]

/- Every attribute name listed in any table of `RewriteTags` is free of
   upper-case ASCII letters. -/
theorem rewriteTags_keys_lower :
    ∀ a ∈ RewriteTags.map Prod.snd, ∀ q ∈ a, ∀ c ∈ q.1, ¬(0x41 ≤ c ∧ c ≤ 0x5A) := by
  decide

/- Looking up a name containing an upper-case letter in a table whose
   keys contain none misses. -/
theorem lookupAssoc_upper_none {α : Type} :
    ∀ (a : List (List Nat × α)) (an : List Nat),
      (∀ q ∈ a, ∀ c ∈ q.1, ¬(0x41 ≤ c ∧ c ≤ 0x5A)) →
      (∃ c ∈ an, 0x41 ≤ c ∧ c ≤ 0x5A) →
      lookupAssoc a an = none := by
  intro a an hk hu
  induction a with
  | nil => rfl
  | cons p rest ih =>
    rcases p with ⟨k, w⟩
    simp only [lookupAssoc]
    have hne : ¬(k = an) := by
      rintro rfl
      obtain ⟨c, hc, hcu⟩ := hu
      exact hk (k, w) (by simp) c hc hcu
    rw [if_neg hne]
    exact ih fun q hq => hk q (by simp [hq])

/-- Counterexample for C10 as stated: the attribute name
`hasOwnProperty` contains no upper-case letter mismatch issue — it
misses every rewrite table, but the prototype-chain lookup
`vars.attrs[attrName]` finds the inherited `Object.prototype.hasOwnProperty`
function, which is used as the write handler and writes nothing, so the
attribute value is silently dropped instead of being passed through
unchanged as the claim requires. -/
theorem c10_counterexample :
    transform (ascii "/p") (ascii "<!DOCTYPE html><a hasOwnProperty=\"/x\">") =
      ascii "<!DOCTYPE html><a hasOwnProperty=\"\">" ∧
    ascii "<!DOCTYPE html><a hasOwnProperty=\"\">" ≠
      ascii "<!DOCTYPE html><a hasOwnProperty=\"/x\">" :=
  ⟨by decide, by decide⟩

/-- C10 (amended): attribute-name lookup in the active rewrite table is
exact (case-sensitive, no folding), so — for every tag name other than
`constructor` and `__proto__`, whose lookups leave the rewrite-table
world — an attribute whose name contains an upper-case letter and is
not one of the members inherited from `Object.prototype` resolves to
the passthrough handler, which emits the value unchanged; inherited
member names are the exception: `hasOwnProperty` resolves to a benign
inherited function that drops the value, and `__proto__` resolves to a
non-callable object whose invocation throws.  End-to-end, `<a
HREF="/x">` is not rewritten even with a non-empty prefix and a value
starting with a single slash. -/
theorem c10_attr_case :
    (∀ (tag an : List Nat), tag ≠ ascii "constructor" → tag ≠ ascii "__proto__" →
      (∃ c ∈ an, 0x41 ≤ c ∧ c ≤ 0x5A) → an ∉ protoMemberNames →
      ∃ t, tagAttrsFor tag = some (.table t) ∧
        attrLookup (.table t) an = .ok (.strategy .writeValue)) ∧
    (∀ pfxU v : List Nat, writeAttrOut (.strategy .writeValue) pfxU v = some v) ∧
    (protoLookup (ascii "hasOwnProperty") = .benign ∧
      protoLookup (ascii "__proto__") = .raising ∧
      (∀ pfxU v : List Nat, writeAttrOut .benign pfxU v = some []) ∧
      (∀ pfxU v : List Nat, writeAttrOut .raising pfxU v = none)) ∧
    transform (ascii "/p") (ascii "<!DOCTYPE html><a HREF=\"/x\">") =
      ascii "<!DOCTYPE html><a HREF=\"/x\">" := by
  refine ⟨?_, fun _ _ => rfl, ⟨by decide, by decide, fun _ _ => rfl, fun _ _ => rfl⟩, by decide⟩
  intro tag an hc hp hu hm
  have hproto : protoLookup an = .strategy .writeValue := by
    simp only [protoMemberNames, List.mem_append, List.mem_singleton, not_or] at hm
    obtain ⟨⟨hm1, hm2⟩, hm3⟩ := hm
    simp only [protoLookup]
    rw [if_neg hm1, if_neg hm2, if_neg hm3]
  cases hl : lookupAssoc RewriteTags tag with
  | some t =>
    refine ⟨t, by simp [tagAttrsFor, hl], ?_⟩
    have ht : t ∈ RewriteTags.map Prod.snd := lookupAssoc_mem _ _ _ hl
    simp only [attrLookup]
    rw [lookupAssoc_upper_none t an (fun q hq c hc2 hcu =>
      rewriteTags_keys_lower t ht q hq c hc2 hcu) hu]
    rw [hproto]
  | none =>
    have hw : tagAttrsFor tag = some (.table [(ascii "style", Strategy.prefixCSSURLValues)]) := by
      simp only [tagAttrsFor, hl, hc, hp, if_false]
      rw [show lookupAssoc RewriteTags (ascii "*") =
        some [(ascii "style", Strategy.prefixCSSURLValues)] from by decide]
    refine ⟨_, hw, ?_⟩
    simp only [attrLookup]
    rw [lookupAssoc_upper_none _ an (fun q hq c hc2 hcu => by
      simp only [List.mem_singleton] at hq
      subst hq
      exact (show ∀ x ∈ ascii "style", ¬(0x41 ≤ x ∧ x ≤ 0x5A) from by decide) c hc2 hcu) hu]
    rw [hproto]

/-- Witness for C10's amended main clause at the attribute name `HREF`
on an `a` tag. -/
theorem c10_witness :
    ∃ t, tagAttrsFor (ascii "a") = some (.table t) ∧
      attrLookup (.table t) (ascii "HREF") = .ok (.strategy .writeValue) :=
  c10_attr_case.1 (ascii "a") (ascii "HREF") (by decide) (by decide) (by decide) (by decide)

/- The last element of a list extended by one element. -/
theorem getLast_snoc (l : List Nat) (a : Nat) : (l ++ [a]).getLast? = some a := by
  simp

/- Scanner step on a unit list that does not begin with `url(`. -/
theorem cssScanF_step_other (pfx : List Nat) (fuel : Nat) (before : List Nat)
    (u : Nat) (rest : List Nat)
    (h : ∀ tail, u :: rest ≠ 0x75 :: 0x72 :: 0x6C :: 0x28 :: tail) :
    cssScanF pfx (fuel + 1) before (u :: rest) =
      u :: cssScanF pfx fuel (before ++ [u]) rest := by
  simp only [cssScanF]
  split
  · rename_i tail heq
    exact absurd heq (h tail)
  · rename_i heq
    cases heq
  · rename_i u2 rest2 heq
    cases heq
    rfl

/- Amended-claim scanner step when the occurrence test fails. -/
theorem cssAmendScan_step_other (pfx : List Nat) (prev : Option Nat)
    (u : Nat) (rest : List Nat)
    (hU : ¬((u :: rest).take 4 = [0x75, 0x72, 0x6C, 0x28] ∧ boundaryOK prev = true)) :
    cssAmendScan pfx prev (u :: rest) = u :: cssAmendScan pfx (some u) rest := by
  conv_lhs => rw [cssAmendScan.eq_def]
  simp only [hU, if_false]

/- The regex tail matcher in take-while/drop form. -/
theorem cssMatch_eq (tail : List Nat) :
    cssMatch tail =
      match tail.drop (tail.takeWhile jsSpace).length with
      | s :: c :: rem =>
        if s = chSlash ∧ ¬(c = chSlash) then some (tail.takeWhile jsSpace, c, rem)
        else none
      | _ => none := by
  induction tail with
  | nil => rfl
  | cons u rest ih =>
    by_cases hws : jsSpace u
    · simp only [cssMatch, hws, if_pos, List.takeWhile_cons, List.length_cons,
        List.drop_succ_cons]
      rw [ih]
      cases hd : rest.drop (rest.takeWhile jsSpace).length with
      | nil => simp
      | cons s rest1 =>
        cases rest1 with
        | nil => simp
        | cons c rem =>
          by_cases hcond : s = chSlash ∧ ¬(c = chSlash)
          · simp [hcond]
          · simp [hcond]
    · simp only [cssMatch, hws, if_neg, List.takeWhile_cons, List.length_nil, List.drop_zero]
      by_cases hsl : u = chSlash
      · cases rest with
        | nil => simp [hsl]
        | cons c rest2 =>
          by_cases hc : c = chSlash
          · simp [hsl, hc]
          · simp [hsl, hc]
      · cases rest with
        | nil => simp [hsl]
        | cons c rest2 => simp [hsl]

/- Template-expansion step on a unit that is not a dollar sign. -/
theorem getSubstF_step_other (ws c m b a : List Nat) (fuel : Nat) (u : Nat)
    (rest : List Nat) (h : ¬u = 0x24) :
    getSubstF ws c m b a (fuel + 1) (u :: rest) =
      u :: getSubstF ws c m b a fuel rest := by
  simp only [getSubstF]

/- Template expansion passes a dollar-free segment through. -/
theorem getSubstF_seg (ws c m b a : List Nat) :
    ∀ (seg rest : List Nat) (fuel : Nat), 0x24 ∉ seg →
      getSubstF ws c m b a (fuel + seg.length) (seg ++ rest) =
        seg ++ getSubstF ws c m b a fuel rest := by
  intro seg
  induction seg with
  | nil => intro rest fuel h; rfl
  | cons u seg2 ih =>
    intro rest fuel h
    simp only [List.mem_cons, not_or] at h
    have hu : ¬u = 0x24 := fun he => h.1 (he ▸ rfl)
    calc getSubstF ws c m b a (fuel + (u :: seg2).length) ((u :: seg2) ++ rest)
        = getSubstF ws c m b a ((fuel + seg2.length) + 1) (u :: (seg2 ++ rest)) := by
          rw [show fuel + (u :: seg2).length = (fuel + seg2.length) + 1 from by
            simp [Nat.add_assoc]]
          rfl
      _ = u :: getSubstF ws c m b a (fuel + seg2.length) (seg2 ++ rest) :=
          getSubstF_step_other ws c m b a (fuel + seg2.length) u (seg2 ++ rest) hu
      _ = u :: (seg2 ++ getSubstF ws c m b a fuel rest) := by rw [ih rest fuel h.2]
      _ = (u :: seg2) ++ getSubstF ws c m b a fuel rest := rfl

/- `$1` in the template expands to the first capture (the whitespace
   run): `$1` followed by a further digit would name capture 10 or
   more, which does not exist, so the two-digit reading never fires. -/
theorem getSubstF_dollar1 (ws c m b a : List Nat) (fuel : Nat) (rest : List Nat) :
    getSubstF ws c m b a (fuel + 1) (0x24 :: 0x31 :: rest) =
      ws ++ getSubstF ws c m b a fuel rest := by
  cases rest with
  | nil => simp [getSubstF, isDigit]
  | cons y rest3 =>
    simp only [getSubstF, isDigit]
    norm_num
    intro h1 h2 h3 h4
    exact absurd h4 (by omega)

/- `$2` at the end of the template expands to the second capture (the
   unit after the slash). -/
theorem getSubstF_dollar2_end (ws c m b a : List Nat) (fuel : Nat) :
    getSubstF ws c m b a (fuel + 1) [0x24, 0x32] = c := by
  simp [getSubstF, isDigit]

/- Expanding the source's replacement template `url($1<prefix>/$2`,
   when the prefix contains no dollar sign, yields
   `url(` ++ capture 1 ++ prefix ++ `/` ++ capture 2. -/
theorem getSubst_template (ws c m b a pfx : List Nat) (hnd : 0x24 ∉ pfx) :
    getSubst ws c m b a (replTemplate pfx) =
      ascii "url(" ++ ws ++ pfx ++ chSlash :: c := by
  have e4 : (ascii "url(").length = 4 := by decide
  have ht : ascii "url($1" ++ pfx ++ ascii "/$2" =
      ascii "url(" ++ ([0x24, 0x31] ++ (pfx ++ (0x2F :: [0x24, 0x32]))) := by
    rw [show ascii "url($1" = ascii "url(" ++ [0x24, 0x31] from by decide]
    rw [show (ascii "/$2") = 0x2F :: [0x24, 0x32] from by decide]
    simp [List.append_assoc]
  have hlen2 : (ascii "url(" ++ ([0x24, 0x31] ++ (pfx ++ (0x2F :: [0x24, 0x32])))).length =
      ((4 + pfx.length) + 1) + (ascii "url(").length := by
    simp [e4]
    omega
  unfold getSubst replTemplate
  rw [ht, hlen2]
  rw [getSubstF_seg ws c m b a (ascii "url(") ([0x24, 0x31] ++ (pfx ++ (0x2F :: [0x24, 0x32])))
    ((4 + pfx.length) + 1) (by decide)]
  rw [show ([0x24, 0x31] : List Nat) ++ (pfx ++ (0x2F :: [0x24, 0x32])) =
    0x24 :: 0x31 :: (pfx ++ (0x2F :: [0x24, 0x32])) from rfl]
  rw [getSubstF_dollar1]
  rw [getSubstF_seg ws c m b a pfx (0x2F :: [0x24, 0x32]) 4 hnd]
  rw [show (4 : Nat) = 3 + 1 from rfl]
  rw [getSubstF_step_other ws c m b a 3 0x2F [0x24, 0x32] (by decide)]
  rw [show (3 : Nat) = 2 + 1 from rfl]
  rw [getSubstF_dollar2_end]
  simp [chSlash]

/- The source scanner (with sufficient fuel), for a prefix free of
   dollar signs, agrees with the amended-claim scanner; `before` enters
   only through its last unit (the word-boundary test). -/
theorem cssScanF_amend (pfx : List Nat) (hnd : 0x24 ∉ pfx) :
    ∀ (fuel : Nat) (before units : List Nat), units.length < fuel →
      cssScanF pfx fuel before units = cssAmendScan pfx before.getLast? units := by
  intro fuel
  induction fuel with
  | zero => intro before units h; exact absurd h (Nat.not_lt_zero _)
  | succ fuel ih =>
    intro before units hlen
    cases units with
    | nil =>
      rw [cssAmendScan.eq_def]
      rfl
    | cons u rest =>
      by_cases hU : (u :: rest).take 4 = [0x75, 0x72, 0x6C, 0x28]
      · rcases rest with _ | ⟨u2, _ | ⟨u3, _ | ⟨u4, tail⟩⟩⟩
        · simp at hU
        · simp at hU
        · simp at hU
        · obtain ⟨rfl, rfl, rfl, rfl⟩ : u = 0x75 ∧ u2 = 0x72 ∧ u3 = 0x6C ∧ u4 = 0x28 := by
            simpa using hU
          have hlen4 : tail.length + 4 < fuel + 1 := by simp at hlen; omega
          by_cases hb : boundaryOK before.getLast?
          · simp only [cssScanF]
            rw [if_pos hb, cssMatch_eq]
            conv_rhs => rw [cssAmendScan.eq_def]
            dsimp only
            rw [if_pos (⟨rfl, hb⟩ : (0x75 :: 0x72 :: 0x6C :: 0x28 :: tail).take 4 =
              [0x75, 0x72, 0x6C, 0x28] ∧ boundaryOK before.getLast? = true)]
            simp only [List.drop_succ_cons, List.drop_zero]
            cases hd : tail.drop (tail.takeWhile jsSpace).length with
            | nil =>
              simp only [hd]
              rw [ih (before ++ [0x75]) (0x72 :: 0x6C :: 0x28 :: tail) (by simp; omega)]
              rw [getLast_snoc]
            | cons s rest1 =>
              cases rest1 with
              | nil =>
                simp only [hd]
                rw [ih (before ++ [0x75]) (0x72 :: 0x6C :: 0x28 :: tail) (by simp; omega)]
                rw [getLast_snoc]
              | cons c rem =>
                by_cases hcond : s = chSlash ∧ ¬(c = chSlash)
                · simp only [hd, if_pos hcond]
                  rw [getSubst_template (tail.takeWhile jsSpace) [c] _ before rem pfx hnd]
                  have hlrem : rem.length < fuel := by
                    have hl := congrArg List.length hd
                    simp [List.length_drop] at hl
                    omega
                  rw [ih (before ++ (ascii "url(" ++ tail.takeWhile jsSpace ++ [chSlash, c]))
                    rem hlrem]
                  rw [show before ++ (ascii "url(" ++ tail.takeWhile jsSpace ++ [chSlash, c]) =
                    (before ++ (ascii "url(" ++ tail.takeWhile jsSpace ++ [chSlash])) ++ [c]
                    from by simp]
                  rw [getLast_snoc]
                  rw [show ascii "url(" = [0x75, 0x72, 0x6C, 0x28] from by decide]
                  simp [chSlash]
                · simp only [hd, if_neg hcond]
                  rw [ih (before ++ [0x75]) (0x72 :: 0x6C :: 0x28 :: tail) (by simp; omega)]
                  rw [getLast_snoc]
          · simp only [cssScanF]
            rw [if_neg hb]
            conv_rhs => rw [cssAmendScan.eq_def]
            dsimp only
            rw [if_neg (fun hg : _ ∧ _ => hb hg.2)]
            rw [ih (before ++ [0x75]) (0x72 :: 0x6C :: 0x28 :: tail) (by simp; omega)]
            rw [getLast_snoc]
      · have hne : ∀ t2, u :: rest ≠ 0x75 :: 0x72 :: 0x6C :: 0x28 :: t2 := by
          intro t2 h
          cases h
          exact hU rfl
        rw [cssScanF_step_other pfx fuel before u rest hne,
          cssAmendScan_step_other pfx before.getLast? u rest (fun hg => hU hg.1)]
        have hlr : rest.length < fuel := by simp at hlen; omega
        rw [ih (before ++ [u]) rest hlr, getLast_snoc]

/-- Counterexample for C5 as stated: the source regex requires a word
boundary before `url(` and at least one unit after the slash, so at an
occurrence of `url(` preceded by a word character (`nourl(/x)`), and at
`url(` whose slash ends the value (`url(/`), the code leaves the value
unchanged while the claim's pattern rewrites it; and the prefix is
spliced into a replacement template, so a prefix containing `$&`
re-inserts the matched text instead of standing for itself. -/
theorem c5_counterexample :
    cssScan (ascii "/p") (ascii "nourl(/x)") = ascii "nourl(/x)" ∧
    cssSpecScan (ascii "/p") (ascii "nourl(/x)") = ascii "nourl(/p/x)" ∧
    cssScan (ascii "/p") (ascii "url(/") = ascii "url(/" ∧
    cssSpecScan (ascii "/p") (ascii "url(/") = ascii "url(/p/" ∧
    cssScan (ascii "$&") (ascii "url(/a)") = ascii "url(url(/a/a)" ∧
    cssSpecScan (ascii "$&") (ascii "url(/a)") = ascii "url($&/a)" ∧
    ascii "nourl(/x)" ≠ ascii "nourl(/p/x)" ∧
    ascii "url(/" ≠ ascii "url(/p/" ∧
    ascii "url(url(/a/a)" ≠ ascii "url($&/a)" :=
  ⟨by decide, by decide, by decide, by decide, by decide, by decide,
    by decide, by decide, by decide⟩

/-- C5 (amended): for every prefix containing no dollar sign, the
CSS-URL strategy rewrites exactly the non-overlapping occurrences of
`url(` that are not immediately preceded by a word character, followed
by optional whitespace, then a single slash that is not followed by
another slash and is followed by at least one further unit: the prefix
is inserted immediately before that slash, and everything else is
emitted unchanged — shown by equality with the amended-claim scanner
for every such prefix and value, plus the spec's two CSS examples. -/
theorem c5_css_amended :
    (∀ (pfxU units : List Nat), 0x24 ∉ pfxU →
      cssScan pfxU units = cssAmendScan pfxU none units) ∧
    cssScan (ascii "/p") (ascii "background:url(/img/x.png)") =
      ascii "background:url(/p/img/x.png)" ∧
    cssScan (ascii "/p") (ascii "url(//cdn/x.png)") = ascii "url(//cdn/x.png)" := by
  refine ⟨fun pfxU units hnd => ?_, by decide, by decide⟩
  have h := cssScanF_amend pfxU hnd (units.length + 1) [] units (Nat.lt_succ_self _)
  simpa using h

/-- Witness for C5's amended main clause at a dollar-free prefix and a
concrete value. -/
theorem c5_witness :
    cssScan (ascii "/p") (ascii "url(/x)") =
      cssAmendScan (ascii "/p") none (ascii "url(/x)") :=
  c5_css_amended.1 (ascii "/p") (ascii "url(/x)") (by decide)
